import Mathlib

/-!
# Verification of the hourly-weather forecast-to-display pipeline

Shallow embedding of the forecast-to-display pipeline of
`src/hourly-weather.ts` (class `HourlyWeatherCard`): the segment-resolution
detector `determineHoursPerSegment`, the condition run-length encoder
`getConditionListFromForecast`, the temperature extractor `getTemperatures`,
the daily-forecast classifier `isForecastDaily`, the color-configuration
validator `getColorSettings` / `isValidColor`, and the bounds-checking part
of `render`.

Modelling conventions:
* JS numbers that only ever hold integral values (timestamps in epoch
  milliseconds, hour counts, offsets, indices, run lengths) are modelled as
  `Int` (or `Nat` for run lengths, which start at 1 and are only ever
  incremented); all JS arithmetic involved is exact on integers of this size.
* `new Date(s).getTime()` is folded into the data model: a segment carries
  its timestamp directly as epoch milliseconds. `Date.prototype.getDate`
  (day of month, local time in JS) is modelled at UTC — a fixed timezone;
  the concrete counterexample timestamps sit at noon UTC, so they denote
  the same day of month in every fixed offset within ±12 h.
* Locale-dependent string formatting (`formatTime` / `formatNumber` /
  `formatHour`) is an external display concern; `HourTemperature` carries the
  underlying datetime and temperature values the source formats.
* The external color predicates (`isValidRGB`, `isValidColorName`,
  `isValidHSL` from the `is-valid-css-color` package) and membership in the
  `ICONS` key set (defined in `src/conditions.ts`, not part of the sources
  here) are abstracted as universally quantified boolean predicates.
* Out-of-range JS array reads (`forecast[i]` with `i` outside `[0, length)`)
  yield `undefined`, on which the source would fault when reading a field;
  `segAt` returns an explicit sentinel there. All theorems about real
  executions either prove the accessed indices in range or carry in-range
  hypotheses.
-/

namespace HourlyWeather

/-- One entry of the `forecast` attribute (type `ForecastSegment` in the
source): `datetime` is the entry's timestamp in milliseconds since the Unix
epoch (the value JS obtains from `new Date(fs.datetime).getTime()`),
`condition` the weather-condition string, `temperature` the numeric
temperature. -/
structure ForecastSegment where
  datetime : Int
  condition : String
  temperature : Int
deriving DecidableEq, Repr

/-- JS array read `forecast[i]`. In range it is the list element; out of
range JS yields `undefined` (and the source faults on any field access),
modelled by an explicit sentinel segment. -/
def segAt (f : List ForecastSegment) (i : Int) : ForecastSegment :=
  if 0 ≤ i then f.getD i.toNat ⟨0, "", 0⟩ else ⟨0, "", 0⟩

/-- The expression `Math.round(deltaMs / 1000 / 3600)` from
`determineHoursPerSegment`, computed exactly: JS `Math.round x = ⌊x + 1/2⌋`
(ties toward `+∞`), and
`⌊deltaMs/3600000 + 1/2⌋ = ⌊(deltaMs + 1800000) / 3600000⌋`. -/
def roundMsToHours (deltaMs : Int) : Int :=
  (deltaMs + 1800000).fdiv 3600000

/-- Source lines 139-144: fewer than 2 entries ⇒ 1, otherwise the delta of
the first two timestamps rounded to hours. -/
def determineHoursPerSegment (f : List ForecastSegment) : Int :=
  if f.length < 2 then 1
  else roundMsToHours ((segAt f 1).datetime - (segAt f 0).datetime)

/-- Day of month (1..31) of a day count since 1970-01-01, by the standard
civil-from-days Gregorian calendar algorithm. Together with `getDate` this
models JS `Date.prototype.getDate` (day of month) at UTC. -/
def civilDayOfMonth (z : Int) : Int :=
  let zShift := z + 719468
  let era := zShift.fdiv 146097
  let doe := (zShift - era * 146097).toNat
  let yoe := (doe - doe / 1460 + doe / 36524 - doe / 146096) / 365
  let doy := doe - (365 * yoe + yoe / 4 - yoe / 100)
  let mp := (5 * doy + 2) / 153
  ((doy - (153 * mp + 2) / 5 + 1 : Nat) : Int)

/-- The JS call `new Date(ms).getDate()` (day of month, UTC): truncate the
timestamp to days since the epoch, then read off the day within its
month. -/
def getDate (ms : Int) : Int :=
  civilDayOfMonth (ms.fdiv 86400000)

/-- Source lines 175-179: map each entry to `getDate` of its timestamp,
count the distinct values (`new Set(dates).size`, modelled by `dedup`), and
compare with `forecast.length - 1` (JS integer arithmetic, hence over `Int`:
for an empty forecast the bound is `-1`). -/
def isForecastDaily (f : List ForecastSegment) : Bool :=
  let dates := f.map (fun fs => getDate fs.datetime)
  let uniqueDates := dates.dedup
  decide ((uniqueDates.length : Int) ≥ (f.length : Int) - 1)

/-- Modelled from the spec (for comparison with `isForecastDaily`, which is
the source's definition): "Computes the set of distinct calendar-day values
(timestamp truncated to the day) across all entries. Returns true ... when
the number of distinct days is at least `length - 1`." Truncating an epoch
timestamp to the day is `fdiv` by 86400000 ms. -/
def isForecastDailySpec (f : List ForecastSegment) : Bool :=
  let days := f.map (fun fs => fs.datetime.fdiv 86400000)
  decide ((days.dedup.length : Int) ≥ (f.length : Int) - 1)

/-- The statement `res[j][1]++` from the encoder: `j` is always
`res.length - 1`, so this increments the run length of the last span. -/
def incLast : List (String × Nat) → List (String × Nat)
  | [] => []
  | [(c, m)] => [(c, m + 1)]
  | p :: rest => p :: incLast rest

/-- The `for` loop of `getConditionListFromForecast` (source lines 150-159):
`i` counts up from `offset + 1` while `i * hoursPerSegment < numHours +
offset * hoursPerSegment`; each iteration reads `forecast[i].condition` and
either increments the last span or opens a new one.

The source's loop guard is exactly `i * hps < n + off * hps`; the conjunct
`1 ≤ hps` is added because for `hps ≤ 0` the source loop, whenever its guard
holds at `i = off + 1`, never terminates (the guard is monotone in `i`), so
no terminating function models it there. Theorem `clm9_encoder_loop_bounded`
shows the guard fails immediately in every state the renderer's bounds check
lets through, so the added conjunct never changes the value on a reachable
call. -/
def encLoop (f : List ForecastSegment) (n hps off : Int) (i : Int)
    (res : List (String × Nat)) (lastCond : String) : List (String × Nat) :=
  if h : 1 ≤ hps ∧ i * hps < n + off * hps then
    let cond := (segAt f i).condition
    if cond = lastCond then
      encLoop f n hps off (i + 1) (incLast res) lastCond
    else
      encLoop f n hps off (i + 1) (res ++ [(cond, 1)]) cond
  else res
termination_by (n + off * hps - i * hps).toNat
decreasing_by
  all_goals
    (have hlt : n + off * hps - (i + 1) * hps < n + off * hps - i * hps := by
       nlinarith [h.1, h.2]
     omega)

/-- Source lines 146-161 (`getConditionListFromForecast`): seed the result
with `[[forecast[offset].condition, 1]]` and run the loop from
`offset + 1`. Run lengths are in `Nat` (they start at 1 and are only
incremented). -/
def getConditionListFromForecast (f : List ForecastSegment)
    (n hps off : Int) : List (String × Nat) :=
  let lastCond := (segAt f off).condition
  encLoop f n hps off (off + 1) [(lastCond, 1)] lastCond

/-- The indices `i` visited by the encoder's `for` loop, in order, starting
from loop counter value `i` (same guard as `encLoop`). -/
def loopIdxs (n hps off : Int) (i : Int) : List Int :=
  if h : 1 ≤ hps ∧ i * hps < n + off * hps then
    i :: loopIdxs n hps off (i + 1)
  else []
termination_by (n + off * hps - i * hps).toNat
decreasing_by
  have hlt : n + off * hps - (i + 1) * hps < n + off * hps - i * hps := by
    nlinarith [h.1, h.2]
  omega

/-- Concatenation of the conditions a span list stands for: each span's
condition repeated `runLength` times, in order. -/
def decodeSpans (spans : List (String × Nat)) : List String :=
  (spans.map (fun p => List.replicate p.2 p.1)).flatten

/-- Sum of the `runLength` values of a span list. -/
def sumRun (spans : List (String × Nat)) : Nat :=
  (spans.map Prod.snd).sum

/-- One displayed temperature (source type `HourTemperature`), carrying the
underlying values the source formats: the segment's timestamp (from which
the `hour` label is formatted) and its temperature. -/
structure HourTemperature where
  hour : Int
  temperature : Int
deriving DecidableEq, Repr

/-- The `for` loop of `getTemperatures` (source lines 165-171): `i` counts
up from `offset` while `i < stop`, pushing one `HourTemperature` per
iteration. -/
def tempLoop (f : List ForecastSegment) (stop : Int) (i : Int)
    (acc : List HourTemperature) : List HourTemperature :=
  if h : i < stop then
    let fs := segAt f i
    tempLoop f stop (i + 1) (acc ++ [⟨fs.datetime, fs.temperature⟩])
  else acc
termination_by (stop - i).toNat
decreasing_by omega

/-- Source lines 163-173 (`getTemperatures`): loop bound is
`Math.floor(numHours / hoursPerSegment) + offset`; `Math.floor` of the exact
quotient is `Int.fdiv`. (For `hps = 0` JS gets `Infinity` and the loop would
not terminate; `Int.fdiv _ 0 = 0` instead — every use here has `hps ≥ 1`.) -/
def getTemperatures (f : List ForecastSegment) (n hps off : Int) :
    List HourTemperature :=
  tempLoop f (n.fdiv hps + off) off []

/-- Statement that the encoder's `for` loop performs at most `m`
iterations: its guard `i * hps < n + off * hps`, checked at
`i = off + 1 + k` for successive `k = 0, 1, ...`, fails at one of the first
`m + 1` checks. -/
def loopGuardFailsBy (n hps off : Int) (m : Nat) : Bool :=
  (List.range (m + 1)).any
    (fun k => !(decide ((off + 1 + (k : Int)) * hps < n + off * hps)))

/-- The forecast indices read by `getConditionListFromForecast`:
`forecast[offset]` for the seed, then `forecast[i]` for each loop
iteration. -/
def encoderAccesses (n hps off : Int) : List Int :=
  off :: loopIdxs n hps off (off + 1)

/-- The forecast indices read by `getTemperatures`: `forecast[i]` for
`i = offset, ..., Math.floor(numHours / hoursPerSegment) + offset - 1`. -/
def temperatureAccesses (n hps off : Int) : List Int :=
  (List.range (n.fdiv hps).toNat).map (fun (t : Nat) => off + (t : Int))

/-- Source type `ColorSettings`: the validated color map (a JS `Map`,
modelled as an insertion-ordered association list — `Object.entries` of a
JS object never repeats a key) plus the rejection warnings. -/
structure ColorSettings where
  validColors : Option (List (String × String))
  warnings : List String
deriving DecidableEq, Repr

/-- Source lines 210-221 (`isValidColor`), with the external predicates
abstracted: `key in ICONS` becomes `iconKey key`, and the three
`is-valid-css-color` parsers become `validRGB` / `validName` /
`validHSL`. -/
def isValidColor (iconKey validRGB validName validHSL : String → Bool)
    (key color : String) : Bool :=
  if !(iconKey key) then false
  else if !(validRGB color || validName color || validHSL color) then false
  else true

/-- Source lines 190-208 (`getColorSettings`): absent config short-circuits
to `{ validColors: undefined, warnings: [] }`; otherwise
`Object.entries(colorConfig).forEach` inserts each valid entry into the map
and pushes `` `${k}: ${v}` `` for each invalid one, in input order. -/
def getColorSettings (iconKey validRGB validName validHSL : String → Bool) :
    Option (List (String × String)) → ColorSettings
  | none => { validColors := none, warnings := [] }
  | some colorConfig =>
    let r := colorConfig.foldl
      (fun acc p =>
        if isValidColor iconKey validRGB validName validHSL p.1 p.2 then
          (acc.1 ++ [p], acc.2)
        else
          (acc.1, acc.2 ++ [p.1 ++ ": " ++ p.2]))
      ([], [])
    { validColors := some r.1, warnings := r.2 }

/-- The data the success path of `render` hands to the `weather-bar`
element and the warning banners (source lines 101-136). -/
structure RenderOutput where
  isDaily : Bool
  conditionList : List (String × Nat)
  temperatures : List HourTemperature
  numHoursNotMultiple : Bool
  colors : ColorSettings
deriving DecidableEq, Repr

/-- Result of `render`: either the `hui-error-card` (which carries only the
error message — no span or temperature list exists on that path) or the
success data. -/
inductive RenderResult where
  | error (msg : String)
  | ok (out : RenderOutput)
deriving DecidableEq, Repr

/-- Source lines 88-137 (`render`), the logic part: `numHours` and `offset`
are the already-parsed config integers (`parseInt(..., 10)` of string-encoded
integers is exact); the bounds check runs first, and only the else branch
computes spans, temperatures, classification and colors. `numHours %
hoursPerSegment` is JS truncating remainder, `Int.tmod`. -/
def render (f : List ForecastSegment) (numHours offset : Int)
    (colorConfig : Option (List (String × String)))
    (iconKey validRGB validName validHSL : String → Bool) : RenderResult :=
  let hoursPerSegment := determineHoursPerSegment f
  if numHours > ((f.length : Int) - offset) * hoursPerSegment then
    RenderResult.error "too_many_hours_requested"
  else
    RenderResult.ok
      { isDaily := isForecastDaily f
        conditionList := getConditionListFromForecast f numHours hoursPerSegment offset
        temperatures := getTemperatures f numHours hoursPerSegment offset
        numHoursNotMultiple := numHours.tmod hoursPerSegment != 0
        colors := getColorSettings iconKey validRGB validName validHSL colorConfig }

/-! ## Concrete test vectors -/

/-- Two hourly entries, both `sunny`. -/
def exForecast2 : List ForecastSegment :=
  [⟨0, "sunny", 20⟩, ⟨3600000, "sunny", 21⟩]

/-- A single-entry forecast. -/
def exForecast1 : List ForecastSegment :=
  [⟨0, "sunny", 20⟩]

/-- Three entries at noon UTC of 1970-01-05, 1970-02-05 and 1970-03-05:
three distinct calendar days, but all three have day-of-month 5. -/
def exForecastMonths : List ForecastSegment :=
  [⟨388800000, "sunny", 20⟩, ⟨3067200000, "sunny", 21⟩,
   ⟨5486400000, "sunny", 22⟩]

/-- Two entries on consecutive days (1970-01-01 and 1970-01-02): distinct
days of month. -/
def exForecastDays : List ForecastSegment :=
  [⟨0, "sunny", 20⟩, ⟨86400000, "cloudy", 21⟩]

/-- A color configuration exercising all three validator outcomes. -/
def exColorConfig : List (String × String) :=
  [("sunny", "red"), ("cloudy", "nope"), ("bogus", "red")]

/-- Sample stand-in for membership in the `ICONS` key set. -/
def exIconKey : String → Bool := fun k => k == "sunny" || k == "cloudy"

/-- Sample stand-in for the RGB/hex color parser. -/
def exRGB : String → Bool := fun c => c == "red"

/-- Sample always-false color parser stand-in. -/
def exFalsePred : String → Bool := fun _ => false

/-! ## Helper lemmas: the span accumulator -/

theorem incLast_pair (c : String) (m : Nat) : incLast [(c, m)] = [(c, m + 1)] := rfl

theorem incLast_cons_cons (p q : String × Nat) (rest : List (String × Nat)) :
    incLast (p :: q :: rest) = p :: incLast (q :: rest) := rfl

theorem incLast_map_fst : ∀ res : List (String × Nat),
    (incLast res).map Prod.fst = res.map Prod.fst
  | [] => rfl
  | [(_, _)] => rfl
  | p :: q :: rest => by
    rw [incLast_cons_cons, List.map_cons, List.map_cons, incLast_map_fst (q :: rest)]

theorem incLast_ne_nil {res : List (String × Nat)} (h : res ≠ []) :
    incLast res ≠ [] := by
  intro hnil
  have hmap := incLast_map_fst res
  rw [hnil] at hmap
  exact h (List.map_eq_nil_iff.mp hmap.symm)

theorem sumRun_cons (p : String × Nat) (l : List (String × Nat)) :
    sumRun (p :: l) = p.2 + sumRun l := by
  simp [sumRun]

theorem sumRun_concat (res : List (String × Nat)) (c : String) :
    sumRun (res ++ [(c, 1)]) = sumRun res + 1 := by
  simp [sumRun]

theorem sumRun_incLast : ∀ res : List (String × Nat), res ≠ [] →
    sumRun (incLast res) = sumRun res + 1
  | [], h => absurd rfl h
  | [(c, m)], _ => by simp [incLast_pair, sumRun]
  | p :: q :: rest, _ => by
    rw [incLast_cons_cons, sumRun_cons, sumRun_cons,
      sumRun_incLast (q :: rest) (by simp)]
    omega

theorem decodeSpans_cons (p : String × Nat) (l : List (String × Nat)) :
    decodeSpans (p :: l) = List.replicate p.2 p.1 ++ decodeSpans l := by
  simp [decodeSpans]

theorem decodeSpans_concat (res : List (String × Nat)) (c : String) :
    decodeSpans (res ++ [(c, 1)]) = decodeSpans res ++ [c] := by
  simp [decodeSpans]

theorem decodeSpans_incLast : ∀ (res : List (String × Nat)) (last : String),
    (res.map Prod.fst).getLast? = some last →
    decodeSpans (incLast res) = decodeSpans res ++ [last]
  | [], last, h => by simp at h
  | [(c, m)], last, h => by
    have hc : c = last := by simpa using h
    subst hc
    rw [incLast_pair, decodeSpans_cons, decodeSpans_cons]
    simp [decodeSpans, List.replicate_succ']
  | p :: q :: rest, last, h => by
    have h' : ((q :: rest).map Prod.fst).getLast? = some last := by
      rw [List.map_cons, List.map_cons, List.getLast?_cons_cons] at h
      rw [List.map_cons]
      exact h
    rw [incLast_cons_cons, decodeSpans_cons, decodeSpans_cons,
      decodeSpans_incLast (q :: rest) last h', List.append_assoc]

theorem chain_fst_concat (res : List (String × Nat)) (last c : String)
    (hlast : (res.map Prod.fst).getLast? = some last)
    (hch : (res.map Prod.fst).Chain' Ne) (hne : c ≠ last) :
    ((res ++ [(c, 1)]).map Prod.fst).Chain' Ne := by
  rw [List.map_append, List.chain'_append]
  refine ⟨hch, by simp, ?_⟩
  intro x hx y hy
  rw [hlast] at hx
  simp only [Option.mem_def, Option.some.injEq] at hx
  simp only [List.map_cons, List.map_nil, List.head?_cons, Option.mem_def,
    Option.some.injEq] at hy
  subst hx
  subst hy
  exact fun hxy => hne hxy.symm

/-! ## Helper lemmas: unfolding the loops -/

theorem encLoop_eq_pos (f : List ForecastSegment) (n hps off i : Int)
    (res : List (String × Nat)) (lastCond : String)
    (h : 1 ≤ hps ∧ i * hps < n + off * hps) :
    encLoop f n hps off i res lastCond =
      if (segAt f i).condition = lastCond then
        encLoop f n hps off (i + 1) (incLast res) lastCond
      else
        encLoop f n hps off (i + 1) (res ++ [((segAt f i).condition, 1)])
          ((segAt f i).condition) := by
  rw [encLoop.eq_def, dif_pos h]

theorem encLoop_eq_neg (f : List ForecastSegment) (n hps off i : Int)
    (res : List (String × Nat)) (lastCond : String)
    (h : ¬(1 ≤ hps ∧ i * hps < n + off * hps)) :
    encLoop f n hps off i res lastCond = res := by
  rw [encLoop.eq_def, dif_neg h]

theorem loopIdxs_eq_pos (n hps off i : Int)
    (h : 1 ≤ hps ∧ i * hps < n + off * hps) :
    loopIdxs n hps off i = i :: loopIdxs n hps off (i + 1) := by
  rw [loopIdxs.eq_def, dif_pos h]

theorem loopIdxs_eq_neg (n hps off i : Int)
    (h : ¬(1 ≤ hps ∧ i * hps < n + off * hps)) :
    loopIdxs n hps off i = [] := by
  rw [loopIdxs.eq_def, dif_neg h]

theorem tempLoop_eq_pos (f : List ForecastSegment) (stop i : Int)
    (acc : List HourTemperature) (h : i < stop) :
    tempLoop f stop i acc =
      tempLoop f stop (i + 1)
        (acc ++ [⟨(segAt f i).datetime, (segAt f i).temperature⟩]) := by
  rw [tempLoop.eq_def, dif_pos h]

theorem tempLoop_eq_neg (f : List ForecastSegment) (stop i : Int)
    (acc : List HourTemperature) (h : ¬i < stop) :
    tempLoop f stop i acc = acc := by
  rw [tempLoop.eq_def, dif_neg h]

/-! ## Helper lemmas: the encoder loop against the visited-index list -/

theorem encLoop_sumRun (f : List ForecastSegment) (n hps off : Int) :
    ∀ (i : Int) (res : List (String × Nat)) (lastCond : String), res ≠ [] →
      sumRun (encLoop f n hps off i res lastCond) =
        sumRun res + (loopIdxs n hps off i).length := by
  intro i res lastCond
  induction i, res, lastCond using encLoop.induct f n hps off with
  | case1 i res h cond ih =>
    intro hres
    rw [encLoop_eq_pos f n hps off i res cond h, if_pos rfl,
      loopIdxs_eq_pos n hps off i h, ih (incLast_ne_nil hres),
      sumRun_incLast res hres, List.length_cons]
    omega
  | case2 i res lastCond h cond hne ih =>
    intro hres
    have hcond : (segAt f i).condition = cond := rfl
    rw [encLoop_eq_pos f n hps off i res lastCond h, hcond, if_neg hne,
      loopIdxs_eq_pos n hps off i h, ih (by simp),
      sumRun_concat res cond, List.length_cons]
    omega
  | case3 i res lastCond h =>
    intro _
    rw [encLoop_eq_neg f n hps off i res lastCond h,
      loopIdxs_eq_neg n hps off i h]
    simp

theorem encLoop_decode (f : List ForecastSegment) (n hps off : Int) :
    ∀ (i : Int) (res : List (String × Nat)) (lastCond : String),
      (res.map Prod.fst).getLast? = some lastCond →
      decodeSpans (encLoop f n hps off i res lastCond) =
        decodeSpans res ++
          (loopIdxs n hps off i).map (fun j => (segAt f j).condition) := by
  intro i res lastCond
  induction i, res, lastCond using encLoop.induct f n hps off with
  | case1 i res h cond ih =>
    intro hlast
    have hlast' : ((incLast res).map Prod.fst).getLast? = some cond := by
      rw [incLast_map_fst res]
      exact hlast
    have hcond : (segAt f i).condition = cond := rfl
    rw [encLoop_eq_pos f n hps off i res cond h, if_pos rfl, ih hlast',
      decodeSpans_incLast res cond hlast, loopIdxs_eq_pos n hps off i h]
    simp only [List.map_cons, hcond, List.append_assoc, List.singleton_append]
  | case2 i res lastCond h cond hne ih =>
    intro hlast
    have hcond : (segAt f i).condition = cond := rfl
    have hlast' : ((res ++ [(cond, 1)]).map Prod.fst).getLast? = some cond := by
      rw [List.map_append]
      simp
    rw [encLoop_eq_pos f n hps off i res lastCond h, hcond, if_neg hne,
      loopIdxs_eq_pos n hps off i h, ih hlast', decodeSpans_concat res cond]
    simp only [List.map_cons, hcond, List.append_assoc, List.singleton_append]
  | case3 i res lastCond h =>
    intro _
    rw [encLoop_eq_neg f n hps off i res lastCond h,
      loopIdxs_eq_neg n hps off i h]
    simp

theorem encLoop_chain (f : List ForecastSegment) (n hps off : Int) :
    ∀ (i : Int) (res : List (String × Nat)) (lastCond : String),
      (res.map Prod.fst).getLast? = some lastCond →
      (res.map Prod.fst).Chain' Ne →
      ((encLoop f n hps off i res lastCond).map Prod.fst).Chain' Ne := by
  intro i res lastCond
  induction i, res, lastCond using encLoop.induct f n hps off with
  | case1 i res h cond ih =>
    intro hlast hch
    rw [encLoop_eq_pos f n hps off i res cond h, if_pos rfl]
    refine ih ?_ ?_
    · rw [incLast_map_fst res]
      exact hlast
    · rw [incLast_map_fst res]
      exact hch
  | case2 i res lastCond h cond hne ih =>
    intro hlast hch
    have hcond : (segAt f i).condition = cond := rfl
    rw [encLoop_eq_pos f n hps off i res lastCond h, hcond, if_neg hne]
    refine ih ?_ (chain_fst_concat res lastCond cond hlast hch hne)
    rw [List.map_append]
    simp
  | case3 i res lastCond h =>
    intro _ hch
    rw [encLoop_eq_neg f n hps off i res lastCond h]
    exact hch

/-! ## Helper lemmas: arithmetic of the loop bounds

Throughout, `(n + hps - 1).fdiv hps` is the ceiling of `n / hps` for
`hps ≥ 1`: the number of forecast entries the encoder's loop visits
(seed entry included). -/

theorem encGuard_iff (n hps off i : Int) (hh : 1 ≤ hps) :
    i * hps < n + off * hps ↔ i < off + (n + hps - 1).fdiv hps := by
  rw [Int.fdiv_eq_ediv _ (by linarith)]
  have hpos : (0 : Int) < hps := by linarith
  constructor
  · intro hlt
    have h1 : (i - off + 1) * hps ≤ n + hps - 1 := by nlinarith
    have h2 := (Int.le_ediv_iff_mul_le hpos).mpr h1
    omega
  · intro hlt
    have h1 : i - off + 1 ≤ (n + hps - 1) / hps := by omega
    have h2 := (Int.le_ediv_iff_mul_le hpos).mp h1
    nlinarith

theorem ceilSteps_pos (n hps : Int) (hh : 1 ≤ hps) (hn : 1 ≤ n) :
    1 ≤ (n + hps - 1).fdiv hps := by
  rw [Int.fdiv_eq_ediv _ (by linarith)]
  rw [Int.le_ediv_iff_mul_le (by linarith)]
  linarith

theorem ceilSteps_le_of_coverage (n hps L off : Int) (hh : 1 ≤ hps)
    (hcov : n ≤ (L - off) * hps) :
    (n + hps - 1).fdiv hps ≤ L - off := by
  rw [Int.fdiv_eq_ediv _ (by linarith)]
  have h1 : n + hps - 1 < (L - off + 1) * hps := by nlinarith
  have h2 := (Int.ediv_lt_iff_lt_mul (show (0 : Int) < hps by linarith)).mpr h1
  omega

theorem floorSteps_le_ceilSteps (n hps : Int) (hh : 1 ≤ hps) :
    n.fdiv hps ≤ (n + hps - 1).fdiv hps := by
  rw [Int.fdiv_eq_ediv _ (by linarith), Int.fdiv_eq_ediv _ (by linarith)]
  exact Int.ediv_le_ediv (by linarith) (by linarith)

theorem loopIdxs_closed (n hps off : Int) (hh : 1 ≤ hps) : ∀ i : Int,
    loopIdxs n hps off i =
      (List.range (off + (n + hps - 1).fdiv hps - i).toNat).map
        (fun (t : Nat) => i + (t : Int)) := by
  intro i
  induction i using loopIdxs.induct n hps off with
  | case1 i h ih =>
    rw [loopIdxs_eq_pos n hps off i h, ih]
    have hi : i < off + (n + hps - 1).fdiv hps :=
      (encGuard_iff n hps off i hh).mp h.2
    rw [show (off + (n + hps - 1).fdiv hps - i).toNat =
        (off + (n + hps - 1).fdiv hps - (i + 1)).toNat + 1 by omega]
    rw [List.range_succ_eq_map, List.map_cons, List.map_map]
    refine congrArg₂ List.cons (by norm_num) ?_
    refine List.map_congr_left fun t _ => ?_
    simp only [Function.comp_apply]
    push_cast
    ring
  | case2 i h =>
    rcases Decidable.not_and_iff_or_not.mp h with hbad | hguard
    · exact absurd hh hbad
    · rw [loopIdxs_eq_neg n hps off i h]
      have hi : ¬i < off + (n + hps - 1).fdiv hps :=
        fun hc => hguard ((encGuard_iff n hps off i hh).mpr hc)
      rw [show (off + (n + hps - 1).fdiv hps - i).toNat = 0 by omega]
      rfl

theorem loopIdxs_from_offset (n hps off : Int) (hh : 1 ≤ hps) :
    loopIdxs n hps off (off + 1) =
      (List.range ((n + hps - 1).fdiv hps - 1).toNat).map
        (fun (t : Nat) => off + 1 + (t : Int)) := by
  rw [loopIdxs_closed n hps off hh (off + 1),
    show off + (n + hps - 1).fdiv hps - (off + 1) =
      (n + hps - 1).fdiv hps - 1 by ring]

theorem tempLoop_closed (f : List ForecastSegment) (stop : Int) :
    ∀ (i : Int) (acc : List HourTemperature),
      tempLoop f stop i acc =
        acc ++ (List.range (stop - i).toNat).map
          (fun (t : Nat) => ⟨(segAt f (i + (t : Int))).datetime,
                             (segAt f (i + (t : Int))).temperature⟩) := by
  intro i acc
  induction i, acc using tempLoop.induct f stop with
  | case1 i acc h fs ih =>
    have hfs : fs = segAt f i := rfl
    rw [hfs] at ih
    rw [tempLoop_eq_pos f stop i acc h, ih, List.append_assoc,
      List.singleton_append,
      show (stop - i).toNat = (stop - (i + 1)).toNat + 1 by omega,
      List.range_succ_eq_map, List.map_cons, List.map_map]
    refine congrArg _ (congrArg₂ List.cons (by norm_num) ?_)
    refine List.map_congr_left fun t _ => ?_
    simp only [Function.comp_apply]
    rw [show i + ((Nat.succ t : Nat) : Int) = i + 1 + (t : Int) by push_cast; ring]
  | case2 i acc h =>
    rw [tempLoop_eq_neg f stop i acc h,
      show (stop - i).toNat = 0 by omega]
    simp

/-! ## Helper lemmas: the pipeline entry points -/

theorem sumRun_encoder (f : List ForecastSegment) (n hps off : Int)
    (hh : 1 ≤ hps) (hn : 1 ≤ n) :
    (sumRun (getConditionListFromForecast f n hps off) : Int) =
      (n + hps - 1).fdiv hps := by
  have h1 := encLoop_sumRun f n hps off (off + 1)
    [((segAt f off).condition, 1)] (segAt f off).condition (by simp)
  have hq := ceilSteps_pos n hps hh hn
  rw [show getConditionListFromForecast f n hps off =
      encLoop f n hps off (off + 1) [((segAt f off).condition, 1)]
        (segAt f off).condition from rfl, h1,
    loopIdxs_from_offset n hps off hh]
  simp only [List.length_map, List.length_range, sumRun, List.map_cons,
    List.map_nil, List.sum_cons, List.sum_nil]
  push_cast
  omega

theorem decode_encoder (f : List ForecastSegment) (n hps off : Int)
    (hh : 1 ≤ hps) (hn : 1 ≤ n) :
    decodeSpans (getConditionListFromForecast f n hps off) =
      (List.range ((n + hps - 1).fdiv hps).toNat).map
        (fun (t : Nat) => (segAt f (off + (t : Int))).condition) := by
  have hinv : (([((segAt f off).condition, 1)] :
      List (String × Nat)).map Prod.fst).getLast? =
      some (segAt f off).condition := rfl
  have h1 := encLoop_decode f n hps off (off + 1)
    [((segAt f off).condition, 1)] (segAt f off).condition hinv
  have hq := ceilSteps_pos n hps hh hn
  rw [show getConditionListFromForecast f n hps off =
      encLoop f n hps off (off + 1) [((segAt f off).condition, 1)]
        (segAt f off).condition from rfl, h1,
    loopIdxs_from_offset n hps off hh, List.map_map,
    show decodeSpans [((segAt f off).condition, 1)] =
      [(segAt f off).condition] from rfl,
    show ((n + hps - 1).fdiv hps).toNat =
      ((n + hps - 1).fdiv hps - 1).toNat + 1 by omega,
    List.range_succ_eq_map, List.map_cons, List.map_map,
    List.singleton_append]
  refine congrArg₂ List.cons (by norm_num) ?_
  refine List.map_congr_left fun t _ => ?_
  simp only [Function.comp_apply]
  rw [show off + ((Nat.succ t : Nat) : Int) = off + 1 + (t : Int) by
    push_cast; ring]

theorem chain_encoder (f : List ForecastSegment) (n hps off : Int) :
    ((getConditionListFromForecast f n hps off).map Prod.fst).Chain' Ne := by
  refine encLoop_chain f n hps off (off + 1)
    [((segAt f off).condition, 1)] (segAt f off).condition rfl ?_
  simp

theorem getTemperatures_closed (f : List ForecastSegment) (n hps off : Int) :
    getTemperatures f n hps off =
      (List.range (n.fdiv hps).toNat).map
        (fun (t : Nat) => ⟨(segAt f (off + (t : Int))).datetime,
                           (segAt f (off + (t : Int))).temperature⟩) := by
  rw [show getTemperatures f n hps off =
      tempLoop f (n.fdiv hps + off) off [] from rfl,
    tempLoop_closed f (n.fdiv hps + off) off [], List.nil_append,
    show n.fdiv hps + off - off = n.fdiv hps by ring]

theorem getTemperatures_length (f : List ForecastSegment) (n hps off : Int) :
    (getTemperatures f n hps off).length = (n.fdiv hps).toNat := by
  rw [getTemperatures_closed f n hps off]
  simp

/-! ## Helper lemmas: color validation and the daily classifier -/

theorem colorFold_closed (iconKey validRGB validName validHSL : String → Bool) :
    ∀ (cfg : List (String × String)) (a : List (String × String))
      (b : List String),
      cfg.foldl
        (fun acc p =>
          if isValidColor iconKey validRGB validName validHSL p.1 p.2 then
            (acc.1 ++ [p], acc.2)
          else
            (acc.1, acc.2 ++ [p.1 ++ ": " ++ p.2]))
        (a, b) =
      (a ++ cfg.filter (fun p =>
          isValidColor iconKey validRGB validName validHSL p.1 p.2),
        b ++ (cfg.filter (fun p =>
          !(isValidColor iconKey validRGB validName validHSL p.1 p.2))).map
            (fun p => p.1 ++ ": " ++ p.2))
  | [], a, b => by simp
  | p :: rest, a, b => by
    rw [List.foldl_cons, List.filter_cons, List.filter_cons]
    by_cases hv : isValidColor iconKey validRGB validName validHSL p.1 p.2
    · rw [if_pos hv,
        colorFold_closed iconKey validRGB validName validHSL rest (a ++ [p]) b]
      simp [hv]
    · rw [if_neg hv,
        colorFold_closed iconKey validRGB validName validHSL rest a
          (b ++ [p.1 ++ ": " ++ p.2])]
      simp [hv]

theorem nodup_all_eq_length_le_one {l : List Int} {d : Int} (hnd : l.Nodup)
    (hall : ∀ x ∈ l, x = d) : l.length ≤ 1 := by
  rcases l with _ | ⟨a, _ | ⟨b, rest⟩⟩
  · simp
  · simp
  · exfalso
    have ha : a = d := hall a (by simp)
    have hb : b = d := hall b (by simp)
    rw [List.nodup_cons] at hnd
    exact hnd.1 (by rw [ha, hb]; simp)

theorem dedup_getDate_le_one (f : List ForecastSegment) (d : Int)
    (hall : ∀ fs ∈ f, getDate fs.datetime = d) :
    (f.map (fun fs => getDate fs.datetime)).dedup.length ≤ 1 := by
  have hsub : ∀ x ∈ (f.map (fun fs => getDate fs.datetime)).dedup, x = d := by
    intro x hx
    rw [List.mem_dedup] at hx
    obtain ⟨fs, hfs, hfs2⟩ := List.mem_map.mp hx
    rw [← hfs2]
    exact hall fs hfs
  exact nodup_all_eq_length_le_one (List.nodup_dedup _) hsub

/-! ## Claim theorems -/

/-- C1 counterexample: with `numHours = 3`, `hoursPerSegment = 2`,
`offset = 0` on a two-entry forecast (within coverage: `3 ≤ (2 - 0) * 2`),
the run lengths of the encoder's spans sum to 2, not
`floor(numHours / hoursPerSegment) = 1` as the claim states. -/
theorem clm1_counterexample :
    1 ≤ (2 : Int) ∧ 0 ≤ (0 : Int) ∧ 1 ≤ (3 : Int) ∧
      (3 : Int) ≤ ((exForecast2.length : Int) - 0) * 2 ∧
      (sumRun (getConditionListFromForecast exForecast2 3 2 0) : Int) ≠
        (3 : Int).fdiv 2 := by
  refine ⟨by norm_num, le_refl 0, by norm_num, by decide, ?_⟩
  rw [sumRun_encoder exForecast2 3 2 0 (by norm_num) (by norm_num)]
  decide

/-- C1 (amended): for every forecast, `hoursPerSegment ≥ 1`, `offset ≥ 0`
and `numHours ≥ 1` within coverage, the `runLength` values of the spans
returned by the condition run-length encoder sum to exactly
`ceil(numHours / hoursPerSegment)` — written `(n + hps - 1).fdiv hps` —
which equals `floor(numHours / hoursPerSegment)` exactly when
`hoursPerSegment` divides `numHours`. -/
theorem clm1_encoder_runlength_sum (f : List ForecastSegment)
    (n hps off : Int) (hh : 1 ≤ hps) (_hoff : 0 ≤ off) (hn : 1 ≤ n)
    (_hcov : n ≤ ((f.length : Int) - off) * hps) :
    (sumRun (getConditionListFromForecast f n hps off) : Int) =
      (n + hps - 1).fdiv hps :=
  sumRun_encoder f n hps off hh hn

theorem clm1_witness :
    (1 ≤ (1 : Int) ∧ 0 ≤ (0 : Int) ∧ 1 ≤ (2 : Int) ∧
      (2 : Int) ≤ ((exForecast2.length : Int) - 0) * 1) ∧
    (sumRun (getConditionListFromForecast exForecast2 2 1 0) : Int) =
      (2 + 1 - 1 : Int).fdiv 1 :=
  ⟨⟨by norm_num, le_refl 0, by norm_num, by decide⟩,
    clm1_encoder_runlength_sum exForecast2 2 1 0 (by norm_num) (le_refl 0)
      (by norm_num) (by decide)⟩

/-- C2: for every forecast, `hoursPerSegment ≥ 1`, `offset ≥ 0` and
`numHours ≥ 1` within coverage, concatenating the spans returned by the
encoder (each span's condition repeated `runLength` times) yields exactly
the sequence of `condition` fields of the forecast entries in the requested
window, in order — the window being the entries whose hour-slots overlap
the requested `numHours` hours: indices `offset` to
`offset + ceil(numHours / hoursPerSegment) - 1`. -/
theorem clm2_decode_reproduces_window (f : List ForecastSegment)
    (n hps off : Int) (hh : 1 ≤ hps) (_hoff : 0 ≤ off) (hn : 1 ≤ n)
    (_hcov : n ≤ ((f.length : Int) - off) * hps) :
    decodeSpans (getConditionListFromForecast f n hps off) =
      (List.range ((n + hps - 1).fdiv hps).toNat).map
        (fun (t : Nat) => (segAt f (off + (t : Int))).condition) :=
  decode_encoder f n hps off hh hn

theorem clm2_witness :
    (1 ≤ (1 : Int) ∧ 0 ≤ (0 : Int) ∧ 1 ≤ (2 : Int) ∧
      (2 : Int) ≤ ((exForecast2.length : Int) - 0) * 1) ∧
    decodeSpans (getConditionListFromForecast exForecast2 2 1 0) =
      ["sunny", "sunny"] :=
  ⟨⟨by norm_num, le_refl 0, by norm_num, by decide⟩,
    (clm2_decode_reproduces_window exForecast2 2 1 0 (by norm_num) (le_refl 0)
      (by norm_num) (by decide)).trans (by decide)⟩

/-- C3 counterexample: `exForecastMonths` has its three entries on three
distinct calendar days (timestamps truncated to the day are 4, 35 and 63),
so the claim's count is `3 ≥ length - 1` and the claim says the classifier
returns true; but the source classifier uses `Date.getDate()` — the day of
the month — which is 5 for all three entries, and returns false. -/
theorem clm3_counterexample :
    isForecastDailySpec exForecastMonths = true ∧
    isForecastDaily exForecastMonths = false := by
  exact ⟨by decide, by decide⟩

/-- C3 (amended): the daily-forecast classifier returns true if and only if
the number of distinct day-of-month values (each entry's timestamp mapped
through `getDate`, i.e. JS `new Date(..).getDate()`, not the timestamp
truncated to the day) is at least `forecast.length - 1`; in particular a
forecast whose entries have pairwise distinct days-of-month is classified
daily, and one whose entries (3 or more) all share a day-of-month is
not. -/
theorem clm3_daily_classifier :
    (∀ f : List ForecastSegment, isForecastDaily f = true ↔
      ((f.map (fun fs => getDate fs.datetime)).dedup.length : Int) ≥
        (f.length : Int) - 1) ∧
    (∀ f : List ForecastSegment,
      (f.map (fun fs => getDate fs.datetime)).Nodup →
        isForecastDaily f = true) ∧
    (∀ (f : List ForecastSegment) (d : Int), 3 ≤ f.length →
      (∀ fs ∈ f, getDate fs.datetime = d) → isForecastDaily f = false) := by
  refine ⟨fun f => ?_, fun f hnd => ?_, fun f d h3 hall => ?_⟩
  · simp [isForecastDaily]
  · have hself := List.dedup_eq_self.mpr hnd
    simp only [isForecastDaily, hself, decide_eq_true_eq, List.length_map,
      ge_iff_le]
    omega
  · have hle := dedup_getDate_le_one f d hall
    simp only [isForecastDaily, decide_eq_false_iff_not, ge_iff_le, not_le]
    omega

theorem clm3_witness :
    (exForecastDays.map (fun fs => getDate fs.datetime)).Nodup ∧
    isForecastDaily exForecastDays = true :=
  ⟨by decide, clm3_daily_classifier.2.1 exForecastDays (by decide)⟩

/-- C4: for every forecast and configuration, if
`numHours > (forecast.length - offset) * hoursPerSegment` (with
`hoursPerSegment` the detector's output), `render` returns the request
error; the error result carries only the message, so no span list or
temperature list — partial or otherwise — is produced on that path. -/
theorem clm4_render_bounds_error (f : List ForecastSegment)
    (numHours offset : Int) (colorConfig : Option (List (String × String)))
    (iconKey validRGB validName validHSL : String → Bool)
    (h : numHours > ((f.length : Int) - offset) * determineHoursPerSegment f) :
    render f numHours offset colorConfig iconKey validRGB validName validHSL =
      RenderResult.error "too_many_hours_requested" := by
  simp only [render]
  rw [if_pos h]

theorem clm4_witness :
    ((5 : Int) > ((([] : List ForecastSegment).length : Int) - 0) *
      determineHoursPerSegment ([] : List ForecastSegment)) ∧
    render ([] : List ForecastSegment) 5 0 none exIconKey exRGB exFalsePred
      exFalsePred = RenderResult.error "too_many_hours_requested" :=
  ⟨by decide,
    clm4_render_bounds_error [] 5 0 none exIconKey exRGB exFalsePred
      exFalsePred (by decide)⟩

/-- C5: for every forecast and all (integer) encoder inputs, no two
consecutive spans in the encoder's output share the same condition: runs
are maximal. (This holds unconditionally in the model; in particular for
all valid inputs.) -/
theorem clm5_adjacent_spans_differ (f : List ForecastSegment)
    (n hps off : Int) :
    (getConditionListFromForecast f n hps off).Chain'
      (fun a b => a.1 ≠ b.1) := by
  have h := chain_encoder f n hps off
  rwa [List.chain'_map] at h

/-- C6: for every forecast, `hoursPerSegment ≥ 1`, `offset ≥ 0` and
`numHours ≥ 1` within coverage, the temperature extractor returns exactly
`floor(numHours / hoursPerSegment)` entries, the `t`-th one built from
forecast index `offset + t` — i.e. one per forecast index from `offset` to
`offset + floor(numHours / hoursPerSegment) - 1`. -/
theorem clm6_temperatures_per_index (f : List ForecastSegment)
    (n hps off : Int) (_hh : 1 ≤ hps) (_hoff : 0 ≤ off) (_hn : 1 ≤ n)
    (_hcov : n ≤ ((f.length : Int) - off) * hps) :
    (getTemperatures f n hps off).length = (n.fdiv hps).toNat ∧
    getTemperatures f n hps off =
      (List.range (n.fdiv hps).toNat).map
        (fun (t : Nat) => ⟨(segAt f (off + (t : Int))).datetime,
                           (segAt f (off + (t : Int))).temperature⟩) :=
  ⟨getTemperatures_length f n hps off, getTemperatures_closed f n hps off⟩

theorem clm6_witness :
    (1 ≤ (1 : Int) ∧ 0 ≤ (0 : Int) ∧ 1 ≤ (2 : Int) ∧
      (2 : Int) ≤ ((exForecast2.length : Int) - 0) * 1) ∧
    ((getTemperatures exForecast2 2 1 0).length = ((2 : Int).fdiv 1).toNat ∧
      getTemperatures exForecast2 2 1 0 =
        (List.range ((2 : Int).fdiv 1).toNat).map
          (fun (t : Nat) =>
            ⟨(segAt exForecast2 ((0 : Int) + (t : Int))).datetime,
             (segAt exForecast2 ((0 : Int) + (t : Int))).temperature⟩)) :=
  ⟨⟨by norm_num, le_refl 0, by norm_num, by decide⟩,
    clm6_temperatures_per_index exForecast2 2 1 0 (by norm_num) (le_refl 0)
      (by norm_num) (by decide)⟩

/-- C7: the segment-resolution detector returns 1 for every forecast with
fewer than 2 entries; for every forecast with at least 2 entries it returns
the elapsed milliseconds between the first two entries' timestamps
converted to hours and rounded to the nearest integer (`roundMsToHours`);
hence for every forecast (of ≥ 2 entries) with uniform N-hour spacing it
returns N. -/
theorem clm7_resolution_detector :
    (∀ f : List ForecastSegment, f.length < 2 →
      determineHoursPerSegment f = 1) ∧
    (∀ f : List ForecastSegment, 2 ≤ f.length →
      determineHoursPerSegment f =
        roundMsToHours ((segAt f 1).datetime - (segAt f 0).datetime)) ∧
    (∀ (f : List ForecastSegment) (N : Int), 2 ≤ f.length →
      (∀ k : Nat, k + 1 < f.length →
        (segAt f ((k : Int) + 1)).datetime - (segAt f (k : Int)).datetime =
          N * 3600000) →
      determineHoursPerSegment f = N) := by
  have hbase : ∀ N : Int, roundMsToHours (N * 3600000) = N := by
    intro N
    unfold roundMsToHours
    rw [Int.fdiv_eq_ediv _ (by norm_num),
      show N * 3600000 + 1800000 = 1800000 + 3600000 * N by ring,
      Int.add_mul_ediv_left 1800000 N (show (3600000 : Int) ≠ 0 by norm_num),
      show (1800000 : Int) / 3600000 = 0 by decide, zero_add]
  refine ⟨fun f hf => ?_, fun f hf => ?_, fun f N hf hu => ?_⟩
  · unfold determineHoursPerSegment
    rw [if_pos hf]
  · unfold determineHoursPerSegment
    rw [if_neg (by omega)]
  · have h0 := hu 0 (by omega)
    norm_num at h0
    unfold determineHoursPerSegment
    rw [if_neg (by omega), h0, hbase]

theorem clm7_witness :
    (([] : List ForecastSegment).length < 2) ∧
    determineHoursPerSegment ([] : List ForecastSegment) = 1 :=
  ⟨by decide, clm7_resolution_detector.1 [] (by decide)⟩

/-- C8: for every choice of the external predicates (membership in the
`ICONS` key set and the three CSS color parsers), an absent color config
yields `{ validColors: undefined, warnings: [] }`; for a present config,
each `(key, color)` entry lands in `validColors` iff `key` is recognized
and `color` passes one of the RGB/named/HSL parsers, and otherwise is
appended to `warnings` as `"key: value"`, preserving input order — so every
entry appears in exactly one of the two outputs. -/
theorem clm8_color_validation
    (iconKey validRGB validName validHSL : String → Bool) :
    getColorSettings iconKey validRGB validName validHSL none =
      { validColors := none, warnings := [] } ∧
    (∀ cfg : List (String × String),
      getColorSettings iconKey validRGB validName validHSL (some cfg) =
        { validColors := some (cfg.filter (fun p =>
            isValidColor iconKey validRGB validName validHSL p.1 p.2)),
          warnings := (cfg.filter (fun p =>
            !(isValidColor iconKey validRGB validName validHSL p.1 p.2))).map
              (fun p => p.1 ++ ": " ++ p.2) }) := by
  refine ⟨rfl, fun cfg => ?_⟩
  have h := colorFold_closed iconKey validRGB validName validHSL cfg [] []
  simp only [getColorSettings, h, List.nil_append]

theorem clm8_witness :
    getColorSettings exIconKey exRGB exFalsePred exFalsePred none =
      { validColors := none, warnings := [] } ∧
    getColorSettings exIconKey exRGB exFalsePred exFalsePred
        (some exColorConfig) =
      { validColors := some [("sunny", "red")],
        warnings := ["cloudy: nope", "bogus: red"] } :=
  ⟨(clm8_color_validation exIconKey exRGB exFalsePred exFalsePred).1,
    ((clm8_color_validation exIconKey exRGB exFalsePred exFalsePred).2
      exColorConfig).trans (by decide)⟩

/-- C9: for every forecast and all integer `numHours`, `hoursPerSegment`
(zero and negative values included) and `offset`, whenever the renderer's
bounds check `numHours ≤ (forecast.length - offset) * hoursPerSegment`
passes, the encoder's loop performs at most `forecast.length` iterations:
either the start index `offset` is outside the array — then reading
`forecast[offset].condition` faults before the loop body ever runs — or
the loop guard fails within the first `forecast.length + 1` checks
(`loopGuardFailsBy`). -/
theorem clm9_encoder_loop_bounded (f : List ForecastSegment)
    (n hps off : Int)
    (hcov : n ≤ ((f.length : Int) - off) * hps) :
    ¬(0 ≤ off ∧ off < (f.length : Int)) ∨
      loopGuardFailsBy n hps off f.length = true := by
  by_cases hrange : 0 ≤ off ∧ off < (f.length : Int)
  · right
    rw [loopGuardFailsBy, List.any_eq_true]
    rcases le_or_lt 1 hps with hh | hle
    · refine ⟨((f.length : Int) - off - 1).toNat, ?_, ?_⟩
      · rw [List.mem_range]
        omega
      · simp only [Bool.not_eq_true', decide_eq_false_iff_not, not_lt]
        rw [Int.toNat_of_nonneg (show (0 : Int) ≤ (f.length : Int) - off - 1
          by omega)]
        nlinarith [hrange.1, hrange.2]
    · refine ⟨0, ?_, ?_⟩
      · rw [List.mem_range]
        omega
      · simp only [Bool.not_eq_true', decide_eq_false_iff_not, not_lt,
          Nat.cast_zero]
        have h1 : 1 ≤ (f.length : Int) - off := by omega
        nlinarith
  · left
    exact hrange

theorem clm9_witness :
    ((2 : Int) ≤ ((exForecast2.length : Int) - 0) * 1) ∧
    (¬(0 ≤ (0 : Int) ∧ (0 : Int) < (exForecast2.length : Int)) ∨
      loopGuardFailsBy 2 1 0 exForecast2.length = true) :=
  ⟨by decide, clm9_encoder_loop_bounded exForecast2 2 1 0 (by decide)⟩

/-- C10: whenever `hoursPerSegment ≥ 1`, `numHours ≥ 1`, `offset ≥ 0` and
the bounds check passes, every forecast index read by the encoder and by
the temperature extractor lies in `[0, forecast.length)`; and the
hypothesis `offset ≥ 0` is required — there are inputs passing the bounds
check with a negative offset on which the encoder reads a negative
index. -/
theorem clm10_access_bounds :
    (∀ (f : List ForecastSegment) (n hps off : Int), 1 ≤ hps → 1 ≤ n →
      0 ≤ off → n ≤ ((f.length : Int) - off) * hps →
      (∀ i ∈ encoderAccesses n hps off, 0 ≤ i ∧ i < (f.length : Int)) ∧
      (∀ i ∈ temperatureAccesses n hps off,
        0 ≤ i ∧ i < (f.length : Int))) ∧
    (∃ (f : List ForecastSegment) (n hps off : Int), 1 ≤ hps ∧ 1 ≤ n ∧
      n ≤ ((f.length : Int) - off) * hps ∧
      ∃ i ∈ encoderAccesses n hps off, i < 0) := by
  constructor
  · intro f n hps off hh hn hoff hcov
    have hceil := ceilSteps_le_of_coverage n hps (f.length : Int) off hh hcov
    have hceil1 := ceilSteps_pos n hps hh hn
    constructor
    · intro i hi
      unfold encoderAccesses at hi
      rcases List.mem_cons.mp hi with rfl | hi2
      · omega
      · rw [loopIdxs_from_offset n hps off hh] at hi2
        obtain ⟨t, ht, rfl⟩ := List.mem_map.mp hi2
        rw [List.mem_range] at ht
        omega
    · intro i hi
      unfold temperatureAccesses at hi
      obtain ⟨t, ht, rfl⟩ := List.mem_map.mp hi
      rw [List.mem_range] at ht
      have hfl := floorSteps_le_ceilSteps n hps hh
      omega
  · refine ⟨exForecast1, 2, 1, -1, by norm_num, by norm_num, by decide,
      -1, ?_, by norm_num⟩
    unfold encoderAccesses
    exact List.mem_cons_self _ _

theorem clm10_witness :
    (1 ≤ (1 : Int) ∧ 1 ≤ (2 : Int) ∧ 0 ≤ (0 : Int) ∧
      (2 : Int) ≤ ((exForecast2.length : Int) - 0) * 1) ∧
    (0 ≤ (0 : Int) ∧ (0 : Int) < (exForecast2.length : Int)) :=
  ⟨⟨by norm_num, by norm_num, le_refl 0, by decide⟩,
    (clm10_access_bounds.1 exForecast2 2 1 0 (by norm_num) (by norm_num)
      (le_refl 0) (by decide)).1 0 (List.mem_cons_self 0 _)⟩

end HourlyWeather
